import Mathlib

/-
Verification development for the clickhouse-proto-gen schema-compilation core.

The Go source is shallowly embedded: a Go string is modelled as its sequence
of characters (`Str := List Char`), Go's `strings` helpers are modelled by
small executable functions on `Str`, and each Go function under verification
is translated one-to-one into a Lean `def` of the same name.  Functions whose
Go implementation is not part of the sources at hand (the sql_helper
generation layer) are modelled from the specification and marked as such in
their doc comments.
-/

namespace CHProto

/-- Str models a Go string as its character sequence. -/
abbrev Str := List Char

/-- Coercion from a Lean string literal to the model type. -/
def str (s : String) : Str := s.toList

/-- Model of Go strings.HasPrefix(s, p). -/
def startsWith (s p : Str) : Bool := p.isPrefixOf s

/-- Model of Go strings.HasSuffix(s, p). -/
def endsWith (s p : Str) : Bool := p.isSuffixOf s

/-- Model of Go strings.TrimPrefix(s, p): drops p from the front of s when present. -/
def trimStart (s p : Str) : Str := if startsWith s p then s.drop p.length else s

/-- Model of Go strings.TrimSuffix(s, p): drops p from the end of s when present. -/
def trimEnd (s p : Str) : Str := if endsWith s p then s.take (s.length - p.length) else s

/-- Drop of leading characters satisfying p (left half of Go strings.Trim family). -/
def trimLeft (p : Char → Bool) (s : Str) : Str := s.dropWhile p

/-- Drop of trailing characters satisfying p (right half of Go strings.Trim family). -/
def trimRight (p : Char → Bool) (s : Str) : Str := (s.reverse.dropWhile p).reverse

/-- Model of Go strings.Trim-style two-sided trimming with predicate p. -/
def trimBy (p : Char → Bool) (s : Str) : Str := trimRight p (trimLeft p s)

/-- Model of Go strings.TrimSpace. -/
def trimSpace (s : Str) : Str := trimBy Char.isWhitespace s

/-- Model of Go strings.Trim(s, "()"): removes all leading and trailing parentheses. -/
def trimParens (s : Str) : Str := trimBy (fun c => c = '(' || c = ')') s

/-- Model of Go strings.Split(s, sep) for a one-character separator. -/
def splitOnChar (c : Char) : Str → List Str
  | [] => [[]]
  | x :: xs =>
    let r := splitOnChar c xs
    if x = c then [] :: r
    else
      match r with
      | [] => [[x]]
      | h :: t => (x :: h) :: t

/-- Index (0-based) of the first occurrence of c in s, if any. -/
def firstIdx : Str → Char → Option Nat
  | [], _ => none
  | x :: xs, c => if x = c then some 0 else (firstIdx xs c).map (· + 1)

/-- Model of Go strings.Index(s, c) for a one-character needle: -1 when absent. -/
def strIndex (s : Str) (c : Char) : Int :=
  match firstIdx s c with
  | some i => (i : Int)
  | none => -1

/-- Model of Go strings.LastIndex(s, c) for a one-character needle: -1 when absent. -/
def strLastIndex (s : Str) (c : Char) : Int :=
  match firstIdx s.reverse c with
  | some i => (s.length : Int) - 1 - (i : Int)
  | none => -1

/-! ## internal/config: the big-integer override configuration -/

/-- ConversionConfig from internal/config/config.go: a table-scoped map of
field names (modelled as an association list) plus the flattened CLI pattern
list. -/
structure ConversionConfig where
  uint64ToString : List (Str × List Str)
  uint64ToStringFields : List Str

/-- Lookup in the table-scoped map (Go map indexing with ok-flag). -/
def lookupTable (m : List (Str × List Str)) (k : Str) : Option (List Str) :=
  (m.find? (fun e => e.1 = k)).map (·.2)

/-- matchesTwoPartPattern from config.go: checks if a table.field pattern matches. -/
def matchesTwoPartPattern (tablePattern fieldPattern tableName fieldName : Str) : Bool :=
  if tablePattern = str "*" ∧ fieldPattern = str "*" then true
  else if (tablePattern = str "*" ∨ tablePattern = tableName) ∧ fieldPattern = fieldName then true
  else if tablePattern = tableName ∧ fieldPattern = str "*" then true
  else false

/-- matchesPattern from config.go: a pattern is split on '.'; one part means a
bare field name, two parts a table.field pattern, anything else matches nothing. -/
def matchesPattern (pattern tableName fieldName : Str) : Bool :=
  match splitOnChar '.' pattern with
  | [x] => x = fieldName
  | [a, b] => matchesTwoPartPattern a b tableName fieldName
  | _ => false

/-- ShouldConvertToString from config.go: table-scoped exact list first, then
the CLI-provided patterns. -/
def shouldConvertToString (cc : ConversionConfig) (tableName fieldName : Str) : Bool :=
  (match lookupTable cc.uint64ToString tableName with
   | some fields => fields.any (fun f => f = fieldName)
   | none => false)
  || cc.uint64ToStringFields.any (fun p => matchesPattern p tableName fieldName)

/-! ## internal/clickhouse: data model and catalog-side parsers -/

/-- Column from internal/clickhouse/types.go (fields relevant to the core). -/
structure Column where
  name : Str
  type : Str
  baseType : Str
  position : Nat
  isNullable : Bool
  isArray : Bool

/-- Projection from internal/clickhouse/types.go. -/
structure Projection where
  name : Str
  orderByKey : List Str
  type : Str

/-- Table from internal/clickhouse/types.go. -/
structure Table where
  name : Str
  database : Str
  columns : List Column
  sortingKey : List Str
  projections : List Projection

/-- extractBaseType from internal/clickhouse/client.go: strips one Nullable
wrapper, then one Array wrapper, then cuts at the first '(' when its index is
positive. -/
def extractBaseType (clickhouseType : Str) : Str :=
  let t1 :=
    if startsWith clickhouseType (str "Nullable(") then
      trimEnd (clickhouseType.drop (str "Nullable(").length) (str ")")
    else clickhouseType
  let t2 :=
    if startsWith t1 (str "Array(") then
      trimEnd (t1.drop (str "Array(").length) (str ")")
    else t1
  let idx := strIndex t2 '('
  if idx > 0 then t2.take idx.toNat else t2

/-- parseSortingKey from internal/clickhouse/client.go: split on commas, trim
space, remove " ASC"/" DESC" suffixes, trim all surrounding parentheses, drop
empty entries. -/
def parseSortingKey (sortingKey : Str) : List Str :=
  if sortingKey = [] then []
  else
    ((splitOnChar ',' sortingKey).map (fun part =>
      trimParens (trimEnd (trimEnd (trimSpace part) (str " ASC")) (str " DESC")))).filter
      (fun p => !p.isEmpty)

/-! ## internal/protogen: the type mapper -/

/-- Proto type constant from mapper.go. -/
def protoInt32 : Str := str "int32"

/-- Proto type constant from mapper.go. -/
def protoInt64 : Str := str "int64"

/-- Proto type constant from mapper.go. -/
def protoUInt32 : Str := str "uint32"

/-- Proto type constant from mapper.go. -/
def protoUInt64 : Str := str "uint64"

/-- Proto type constant from mapper.go. -/
def protoFloat : Str := str "float"

/-- Proto type constant from mapper.go. -/
def protoDouble : Str := str "double"

/-- Proto type constant from mapper.go. -/
def protoString : Str := str "string"

/-- Proto type constant from mapper.go. -/
def protoBool : Str := str "bool"

/-- Proto type constant from mapper.go. -/
def protoBytes : Str := str "bytes"

/-- mapNumericType from mapper.go: the numeric part of the base-type table;
empty result means "not a numeric type". -/
def mapNumericType (baseType : Str) : Str :=
  if baseType = str "Int8" ∨ baseType = str "Int16" ∨ baseType = str "Int32" then protoInt32
  else if baseType = str "Int64" then protoInt64
  else if baseType = str "Int128" ∨ baseType = str "Int256" then protoString
  else if baseType = str "UInt8" ∨ baseType = str "UInt16" ∨ baseType = str "UInt32" then protoUInt32
  else if baseType = str "UInt64" then protoUInt64
  else if baseType = str "UInt128" ∨ baseType = str "UInt256" then protoString
  else if baseType = str "Float32" then protoFloat
  else if baseType = str "Float64" then protoDouble
  else if baseType = str "Decimal" ∨ baseType = str "Decimal32" ∨ baseType = str "Decimal64" ∨
      baseType = str "Decimal128" ∨ baseType = str "Decimal256" then protoString
  else if baseType = str "Bool" then protoBool
  else if baseType = str "DateTime" then protoUInt32
  else []

/-- mapStringType from mapper.go: the textual part of the base-type table;
empty result means "not a textual type". -/
def mapStringType (baseType : Str) : Str :=
  if baseType = str "String" ∨ baseType = str "FixedString" then protoString
  else if baseType = str "Date" ∨ baseType = str "Date32" then protoString
  else if baseType = str "UUID" then protoString
  else if baseType = str "IPv4" ∨ baseType = str "IPv6" then protoString
  else if baseType = str "JSON" then protoString
  else if baseType = str "Binary" then protoBytes
  else if baseType = str "Enum8" ∨ baseType = str "Enum16" then protoString
  else if baseType = str "Point" ∨ baseType = str "Ring" ∨ baseType = str "Polygon" ∨
      baseType = str "MultiPolygon" then protoString
  else []

/-- extractInnerType from mapper.go: the trimmed text between the first '('
and the last ')' when that span is well-formed, else the input unchanged. -/
def extractInnerType (wrappedType : Str) : Str :=
  let start := strIndex wrappedType '('
  let stop := strLastIndex wrappedType ')'
  if start > 0 ∧ stop > start then
    trimSpace ((wrappedType.drop (start.toNat + 1)).take (stop.toNat - start.toNat - 1))
  else wrappedType

/-- Scan for the first top-level comma (paren-depth zero), as in parseMapType's
loop in mapper.go. -/
def findTopComma : Str → Int → Nat → Option Nat
  | [], _, _ => none
  | ch :: rest, depth, i =>
    if ch = '(' then findTopComma rest (depth + 1) (i + 1)
    else if ch = ')' then findTopComma rest (depth - 1) (i + 1)
    else if ch = ',' ∧ depth = 0 then some i
    else findTopComma rest depth (i + 1)

/-- parseMapType from mapper.go: splits "Map(K, V)" at the first top-level
comma and strips one Nullable layer from the value type. -/
def parseMapType (mapType : Str) : Str × Str :=
  if ¬ (startsWith mapType (str "Map(") = true) ∨ ¬ (endsWith mapType (str ")") = true) then
    ([], [])
  else
    let inner := (mapType.drop 4).take (mapType.length - 5)
    match findTopComma inner 0 0 with
    | none => ([], [])
    | some commaPos =>
      let keyType := trimSpace (inner.take commaPos)
      let valueType := trimSpace (inner.drop (commaPos + 1))
      let valueType :=
        if startsWith valueType (str "Nullable(") ∧ endsWith valueType (str ")") then
          (valueType.drop 9).take (valueType.length - 10)
        else valueType
      (keyType, valueType)

/-- isValidProtoMapKey from mapper.go. -/
def isValidProtoMapKey (protoType : Str) : Bool :=
  [str "int32", str "int64", str "uint32", str "uint64", str "sint32", str "sint64",
   str "fixed32", str "fixed64", str "sfixed32", str "sfixed64", str "bool",
   str "string"].contains protoType

/-- Truncation at the first '(' with positive index, the preprocessing step of
mapClickHouseTypeToProto in mapper.go. -/
def chopParen (chType : Str) : Str :=
  let idx := strIndex chType '('
  if idx > 0 then chType.take idx.toNat else chType

/-- Helper bound: two-sided trimming never lengthens a string. -/
lemma trimBy_length_le (p : Char → Bool) (s : Str) : (trimBy p s).length ≤ s.length := by
  have h1 : (trimLeft p s).length ≤ s.length := (List.dropWhile_sublist p).length_le
  have h2 : (trimRight p (trimLeft p s)).length ≤ (trimLeft p s).length := by
    unfold trimRight
    rw [List.length_reverse]
    calc ((trimLeft p s).reverse.dropWhile p).length
        ≤ (trimLeft p s).reverse.length := (List.dropWhile_sublist p).length_le
      _ = (trimLeft p s).length := List.length_reverse _
  exact le_trans h2 h1

/-- Helper bound: trimSpace never lengthens a string. -/
lemma trimSpace_length_le (s : Str) : (trimSpace s).length ≤ s.length :=
  trimBy_length_le _ s

/-- Helper bound: chopParen never lengthens a string. -/
lemma chopParen_length_le (s : Str) : (chopParen s).length ≤ s.length := by
  simp only [chopParen]
  split
  · exact (List.take_sublist _ _).length_le
  · exact le_refl _

/-- Helper bound: a prefix test bounds the length from below. -/
lemma startsWith_length_le (s p : Str) (h : startsWith s p = true) : p.length ≤ s.length := by
  unfold startsWith at h
  exact (List.isPrefixOf_iff_prefix.mp h).length_le

/-- Helper: a parseMapType result is either empty or strictly shorter than its input. -/
lemma parseMapType_length (s : Str) :
    parseMapType s = ([], []) ∨
      ((parseMapType s).1.length < s.length ∧ (parseMapType s).2.length < s.length) := by
  simp only [parseMapType]
  split
  · exact Or.inl rfl
  · rename_i h
    have hpre : startsWith s (str "Map(") = true := by
      by_contra hc
      exact h (Or.inl (by simpa using hc))
    have hlen : 4 ≤ s.length := by
      have := startsWith_length_le s (str "Map(") hpre
      simpa [str] using this
    have hinner : ((s.drop 4).take (s.length - 5)).length < s.length := by
      have h5 : ((s.drop 4).take (s.length - 5)).length ≤ (s.drop 4).length :=
        (List.take_sublist _ _).length_le
      have h4 : (s.drop 4).length = s.length - 4 := List.length_drop _ _
      omega
    cases hc : findTopComma ((s.drop 4).take (s.length - 5)) 0 0 with
    | none => simp [hc]
    | some commaPos =>
      simp only [hc]
      right
      constructor
      · calc (trimSpace (((s.drop 4).take (s.length - 5)).take commaPos)).length
            ≤ (((s.drop 4).take (s.length - 5)).take commaPos).length :=
              trimSpace_length_le _
          _ ≤ ((s.drop 4).take (s.length - 5)).length := (List.take_sublist _ _).length_le
          _ < s.length := hinner
      · have hv : (trimSpace (((s.drop 4).take (s.length - 5)).drop (commaPos + 1))).length
            < s.length := by
          calc (trimSpace (((s.drop 4).take (s.length - 5)).drop (commaPos + 1))).length
              ≤ (((s.drop 4).take (s.length - 5)).drop (commaPos + 1)).length :=
                trimSpace_length_le _
            _ ≤ ((s.drop 4).take (s.length - 5)).length := by
                rw [List.length_drop]; omega
            _ < s.length := hinner
        split
        · calc ((trimSpace (((s.drop 4).take (s.length - 5)).drop (commaPos + 1))).drop 9
                |>.take ((trimSpace (((s.drop 4).take (s.length - 5)).drop (commaPos + 1))).length - 10)).length
              ≤ ((trimSpace (((s.drop 4).take (s.length - 5)).drop (commaPos + 1))).drop 9).length :=
                (List.take_sublist _ _).length_le
            _ ≤ (trimSpace (((s.drop 4).take (s.length - 5)).drop (commaPos + 1))).length := by
                rw [List.length_drop]; omega
            _ < s.length := hv
        · exact hv

/-- Helper: a found character index witnesses membership. -/
lemma firstIdx_some_mem (s : Str) (c : Char) (i : Nat) (hf : firstIdx s c = some i) :
    c ∈ s := by
  induction s generalizing i with
  | nil => simp [firstIdx] at hf
  | cons x xs ih =>
    by_cases hx : x = c
    · simp [hx]
    · simp only [firstIdx, if_neg hx] at hf
      cases hf2 : firstIdx xs c with
      | none => rw [hf2] at hf; simp at hf
      | some j => exact List.mem_cons_of_mem _ (ih j hf2)

/-- Helper: when strIndex finds '(' at a positive index, the string contains '('. -/
lemma strIndex_pos_mem (s : Str) (c : Char) (h : strIndex s c > 0) : c ∈ s := by
  cases hf : firstIdx s c with
  | none => simp [strIndex, hf] at h
  | some i => exact firstIdx_some_mem s c i hf

/-- Helper: an extractInnerType result either shrinks strictly or is the input itself. -/
lemma extractInnerType_cases (s : Str) (h : strIndex s '(' > 0) :
    (extractInnerType s).length < s.length ∨ extractInnerType s = s := by
  simp only [extractInnerType]
  split
  · rename_i hcond
    left
    have hmem : '(' ∈ s := strIndex_pos_mem s '(' h
    have hne : s.length ≠ 0 := by
      intro h0
      rw [List.length_eq_zero] at h0
      subst h0
      simp at hmem
    calc (trimSpace ((s.drop ((strIndex s '(').toNat + 1)).take
            ((strLastIndex s ')').toNat - (strIndex s '(').toNat - 1))).length
        ≤ ((s.drop ((strIndex s '(').toNat + 1)).take
            ((strLastIndex s ')').toNat - (strIndex s '(').toNat - 1)).length :=
          trimSpace_length_le _
      _ ≤ (s.drop ((strIndex s '(').toNat + 1)).length := (List.take_sublist _ _).length_le
      _ = s.length - ((strIndex s '(').toNat + 1) := List.length_drop _ _
      _ < s.length := by omega
  · right; rfl

/-- mapBaseType from mapper.go (the newer engine): DateTime64 is special-cased,
then the numeric table, the textual table, and the special composite handling
(LowCardinality recursion, Map composition, Tuple as text) with an unknown
base type defaulting to string.  The LowCardinality and Map branches inline
mapSpecialType and the mapClickHouseTypeToProto preprocessing (chopParen) from
the same file. -/
def mapBaseType (baseType fullType : Str) : Str :=
  if baseType = str "DateTime64" then protoInt64
  else if mapNumericType baseType ≠ [] then mapNumericType baseType
  else if mapStringType baseType ≠ [] then mapStringType baseType
  else if hlc : baseType = str "LowCardinality" then
    if hidx : strIndex fullType '(' > 0 then
      mapBaseType (extractInnerType fullType) (extractInnerType fullType)
    else protoString
  else if hmap : baseType = str "Map" then
    if hkv : (parseMapType fullType).1 = [] ∨ (parseMapType fullType).2 = [] then protoString
    else
      let protoKeyType :=
        mapBaseType (chopParen (parseMapType fullType).1) (chopParen (parseMapType fullType).1)
      if ¬ (isValidProtoMapKey protoKeyType = true) then protoString
      else
        let protoValueType :=
          mapBaseType (chopParen (parseMapType fullType).2) (chopParen (parseMapType fullType).2)
        str "map<" ++ protoKeyType ++ str ", " ++ protoValueType ++ str ">"
  else if baseType = str "Tuple" then protoString
  else protoString
termination_by (fullType.length, if baseType = str "LowCardinality" then 1 else 0)
decreasing_by
  · rcases extractInnerType_cases fullType hidx with hlt | heq
    · exact Prod.Lex.left _ _ hlt
    · rw [heq]
      apply Prod.Lex.right
      have hmem : '(' ∈ fullType := strIndex_pos_mem fullType '(' hidx
      have hneq : ¬ fullType = str "LowCardinality" := by
        intro hcontra
        rw [hcontra] at hmem
        simp [str] at hmem
      simp [hlc, hneq]
  · rcases parseMapType_length fullType with hz | ⟨h1, h2⟩
    · exact absurd (Or.inl (by simp [hz])) hkv
    · exact Prod.Lex.left _ _ (lt_of_le_of_lt (chopParen_length_le _) h1)
  · rcases parseMapType_length fullType with hz | ⟨h1, h2⟩
    · exact absurd (Or.inl (by simp [hz])) hkv
    · exact Prod.Lex.left _ _ (lt_of_le_of_lt (chopParen_length_le _) h2)

/-- getWrapperType from mapper.go: the Google wrapper for each primitive proto
type, empty for everything else. -/
def getWrapperType (protoType : Str) : Str :=
  if protoType = protoString then str "google.protobuf.StringValue"
  else if protoType = protoBool then str "google.protobuf.BoolValue"
  else if protoType = protoInt32 then str "google.protobuf.Int32Value"
  else if protoType = protoInt64 then str "google.protobuf.Int64Value"
  else if protoType = protoUInt32 then str "google.protobuf.UInt32Value"
  else if protoType = protoUInt64 then str "google.protobuf.UInt64Value"
  else if protoType = protoFloat then str "google.protobuf.FloatValue"
  else if protoType = protoDouble then str "google.protobuf.DoubleValue"
  else if protoType = protoBytes then str "google.protobuf.BytesValue"
  else []

/-- MapType from mapper.go: the big-integer override first, then the base-type
table with the repeated modifier and the nullable wrapper.  The Go function's
error channel is kept (it is never used). -/
def MapType (column : Column) (tableName : Str) (convConfig : ConversionConfig) :
    Except Str Str :=
  let baseType := column.baseType
  if (baseType = str "UInt64" ∨ baseType = str "Int64") ∧
      shouldConvertToString convConfig tableName column.name = true then
    if column.isArray then Except.ok (str "repeated string")
    else if column.isNullable then Except.ok (str "google.protobuf.StringValue")
    else Except.ok protoString
  else
    let protoType := mapBaseType baseType column.type
    if column.isArray then Except.ok (str "repeated " ++ protoType)
    else if column.isNullable ∧ getWrapperType protoType ≠ [] then
      Except.ok (getWrapperType protoType)
    else Except.ok protoType

/-- getMapFilterType from mapper.go: map filters for the supported String-keyed
combinations. -/
def getMapFilterType (columnType : Str) : Str :=
  let kv := parseMapType columnType
  if kv.1 = [] ∨ kv.2 = [] then []
  else if kv.1 = str "String" then
    if kv.2 = str "String" then str "MapStringStringFilter"
    else if kv.2 = str "UInt32" ∨ kv.2 = str "UInt8" ∨ kv.2 = str "UInt16" then
      str "MapStringUInt32Filter"
    else if kv.2 = str "UInt64" then str "MapStringUInt64Filter"
    else if kv.2 = str "Int32" ∨ kv.2 = str "Int8" ∨ kv.2 = str "Int16" then
      str "MapStringInt32Filter"
    else if kv.2 = str "Int64" then str "MapStringInt64Filter"
    else []
  else []

/-- Switch of getScalarFilterType in mapper.go that picks the base filter tag
from the mapped proto type (factored out as a named function). -/
def scalarBaseFilter (protoType : Str) : Str :=
  if protoType = protoInt32 then str "Int32Filter"
  else if protoType = protoInt64 then str "Int64Filter"
  else if protoType = protoUInt32 then str "UInt32Filter"
  else if protoType = protoUInt64 then str "UInt64Filter"
  else if protoType = protoString then str "StringFilter"
  else if protoType = protoBool then str "BoolFilter"
  else []

/-- getScalarFilterType from mapper.go: the filter tag for scalar columns,
derived from the mapped proto type, with a Nullable prefix for nullable
columns (and no tag at all when the switch has no entry). -/
def getScalarFilterType (column : Column) : Str :=
  let baseFilterType := scalarBaseFilter (mapBaseType column.baseType column.type)
  if baseFilterType = [] then []
  else if column.isNullable then str "Nullable" ++ baseFilterType
  else baseFilterType

/-- GetFilterTypeForColumn from mapper.go: arrays filterless, then the
big-integer override (string filters), then map filters, then scalar filters. -/
def GetFilterTypeForColumn (column : Column) (tableName : Str)
    (convConfig : ConversionConfig) : Str :=
  if column.isArray then []
  else if (column.baseType = str "UInt64" ∨ column.baseType = str "Int64") ∧
      shouldConvertToString convConfig tableName column.name = true then
    if column.isNullable then str "NullableStringFilter" else str "StringFilter"
  else if column.baseType = str "Map" then getMapFilterType column.type
  else getScalarFilterType column

/-- GetFieldNumber from mapper.go: position plus an offset of 10 (uint64
arithmetic), clamped to the int32 maximum, with zero replaced by 1. -/
def GetFieldNumber (position : Nat) : Nat :=
  let fieldNum := (position + 10) % 2 ^ 64
  if fieldNum > 2147483647 then 2147483647
  else if fieldNum = 0 then 1
  else fieldNum

/-! ## Specification-side definitions for the refinement claims -/

/-- Strip of a single wrapper layer (the spec claim's reading for C7): when the
string starts with the wrapper opener, the opener is removed and then one
closing parenthesis from the end when present. -/
def stripWrapperLayer (w t : Str) : Str :=
  if startsWith t w then
    let r := t.drop w.length
    if endsWith r (str ")") then r.take (r.length - 1) else r
  else t

/-- Base-type extraction as described by claim C7: one Nullable layer, then one
Array layer, then the name preceding the first '(' when a nonempty name
precedes a parenthesized parameter list, else the full remaining string. -/
def claimExtractBaseType (t : Str) : Str :=
  let t2 := stripWrapperLayer (str "Array(") (stripWrapperLayer (str "Nullable(") t)
  if '(' ∈ t2 ∧ t2.head? ≠ some '(' then t2.takeWhile (fun c => c != '(') else t2

/-- Removal of exactly one layer of surrounding parentheses, as claim C8 words it. -/
def stripOneParenLayer (s : Str) : Str :=
  if startsWith s (str "(") ∧ endsWith s (str ")") then (s.drop 1).take (s.length - 2)
  else s

/-- Sorting-key parsing as described by claim C8 (with exactly one surrounding
parenthesis layer stripped per entry). -/
def claimParseSortingKey (sortingKey : Str) : List Str :=
  if sortingKey = [] then []
  else
    ((splitOnChar ',' sortingKey).map (fun part =>
      stripOneParenLayer (trimEnd (trimEnd (trimSpace part) (str " ASC")) (str " DESC")))).filter
      (fun p => !p.isEmpty)

/-- Removal of all leading parenthesis characters. -/
def dropLeadingParens : Str → Str
  | [] => []
  | c :: rest => if c = '(' ∨ c = ')' then dropLeadingParens rest else c :: rest

/-- Removal of all trailing parenthesis characters. -/
def dropTrailingParens (s : Str) : Str := (dropLeadingParens s.reverse).reverse

/-- Sorting-key parsing as described by the amended claim C8: all leading and
trailing parenthesis characters are removed from each entry. -/
def amendedParseSortingKey (sortingKey : Str) : List Str :=
  if sortingKey = [] then []
  else
    ((splitOnChar ',' sortingKey).map (fun part =>
      dropTrailingParens (dropLeadingParens
        (trimEnd (trimEnd (trimSpace part) (str " ASC")) (str " DESC"))))).filter
      (fun p => !p.isEmpty)

/-! ## Supporting lemmas for the string-parser claims -/

/-- Helper: an absent character means firstIdx finds nothing. -/
lemma firstIdx_none_not_mem (s : Str) (c : Char) (hf : firstIdx s c = none) : c ∉ s := by
  induction s with
  | nil => simp
  | cons x xs ih =>
    by_cases hx : x = c
    · simp [firstIdx, hx] at hf
    · simp only [firstIdx, if_neg hx] at hf
      cases hf2 : firstIdx xs c with
      | none => simp [Ne.symm hx, ih hf2]
      | some j => rw [hf2] at hf; simp at hf


/-- Helper: a head hit gives index zero. -/
lemma firstIdx_zero_head (s : Str) (c : Char) (hf : firstIdx s c = some 0) :
    s.head? = some c := by
  cases s with
  | nil => simp [firstIdx] at hf
  | cons x xs =>
    by_cases hx : x = c
    · simp [hx]
    · simp only [firstIdx, if_neg hx] at hf
      cases hf2 : firstIdx xs c with
      | none => rw [hf2] at hf; simp at hf
      | some j => rw [hf2] at hf; simp at hf

/-- Helper: the prefix before a found index is the largest needle-free prefix. -/
lemma take_firstIdx_eq_takeWhile (s : Str) (c : Char) (i : Nat)
    (hf : firstIdx s c = some i) : s.take i = s.takeWhile (fun x => x != c) := by
  induction s generalizing i with
  | nil => simp
  | cons x xs ih =>
    by_cases hx : x = c
    · have h0 : i = 0 := by simp [firstIdx, hx] at hf; omega
      subst h0
      simp [List.takeWhile_cons, hx]
    · simp only [firstIdx, if_neg hx] at hf
      cases hf2 : firstIdx xs c with
      | none => rw [hf2] at hf; simp at hf
      | some j =>
        rw [hf2] at hf
        have hij : i = j + 1 := by simpa using hf.symm
        subst hij
        simp [List.takeWhile_cons, bne_iff_ne, hx, List.take_succ_cons, ih j hf2]

/-- Helper: the final name-cutting step of extractBaseType agrees with the
claim's formulation of it. -/
lemma finalCut_eq (s : Str) :
    (if strIndex s '(' > 0 then s.take (strIndex s '(').toNat else s)
      = (if '(' ∈ s ∧ s.head? ≠ some '(' then s.takeWhile (fun c => c != '(') else s) := by
  cases hf : firstIdx s '(' with
  | none =>
    have hmem : '(' ∉ s := firstIdx_none_not_mem s '(' hf
    simp [strIndex, hf, hmem]
  | some i =>
    cases i with
    | zero =>
      have hhead : s.head? = some '(' := firstIdx_zero_head s '(' hf
      simp [strIndex, hf, hhead]
    | succ j =>
      have hmem : '(' ∈ s := firstIdx_some_mem s '(' (j + 1) hf
      have hhead : s.head? ≠ some '(' := by
        intro hcontra
        cases s with
        | nil => simp at hcontra
        | cons x xs =>
          simp only [List.head?_cons, Option.some_inj] at hcontra
          simp [firstIdx, hcontra] at hf
      have htake : s.take (j + 1) = s.takeWhile (fun x => x != '(') :=
        take_firstIdx_eq_takeWhile s '(' (j + 1) hf
      simp [strIndex, hf, hmem, hhead, htake]

/-- Helper: the claim's one-layer wrapper strip is the source's
TrimPrefix-plus-TrimSuffix combination. -/
lemma stripWrapperLayer_eq (w s : Str) :
    stripWrapperLayer w s =
      (if startsWith s w then trimEnd (s.drop w.length) (str ")") else s) := by
  simp only [stripWrapperLayer, trimEnd, str]
  rfl

/-- C7: the base-type extractor strips, in order, at most one layer of
Nullable(...), then at most one layer of Array(...), then returns the name
preceding the first '(' when a (nonempty) name precedes parameters and the full
remaining string otherwise; malformed input missing a closing parenthesis fails
soft to the partially-trimmed string.  Stated as extensional equality between
the source function and the claim's description. -/
theorem C7_extractBaseType_matches_claim (t : Str) :
    extractBaseType t = claimExtractBaseType t := by
  simp only [extractBaseType, claimExtractBaseType, stripWrapperLayer_eq]
  exact finalCut_eq _

/-- C7 witness: the claim-level description evaluated on a concrete input via
the theorem. -/
theorem C7_witness :
    extractBaseType (str "Nullable(Array(UInt64))") =
      claimExtractBaseType (str "Nullable(Array(UInt64))") ∧
    extractBaseType (str "Nullable(Array(UInt64))") = str "UInt64" := by
  refine ⟨C7_extractBaseType_matches_claim (str "Nullable(Array(UInt64))"), ?_⟩
  decide

/-- C8 counterexample: the source parser strips all surrounding parentheses,
not exactly one layer, so on "((a))" the code yields "a" where the claim as
stated yields "(a)". -/
theorem C8_counterexample :
    parseSortingKey (str "((a))") = [str "a"] ∧
    claimParseSortingKey (str "((a))") = [str "(a)"] ∧
    parseSortingKey (str "((a))") ≠ claimParseSortingKey (str "((a))") := by
  decide

/-- Helper: the recursive leading-paren removal is dropWhile. -/
lemma dropLeadingParens_eq_dropWhile (s : Str) :
    dropLeadingParens s = s.dropWhile (fun c => c = '(' || c = ')') := by
  induction s with
  | nil => rfl
  | cons x xs ih =>
    by_cases hx : x = '(' ∨ x = ')'
    · have hb : (x = '(' || x = ')') = true := by
        rcases hx with h | h <;> simp [h]
      simp [dropLeadingParens, hx, List.dropWhile_cons, hb, ih]
    · have hb : (x = '(' || x = ')') = false := by
        push_neg at hx
        simp [hx.1, hx.2]
      simp [dropLeadingParens, hx, List.dropWhile_cons, hb]

/-- Helper: the source's two-sided paren trim is the amended claim's
leading-then-trailing removal. -/
lemma trimParens_eq_amended (s : Str) :
    trimParens s = dropTrailingParens (dropLeadingParens s) := by
  simp [trimParens, trimBy, trimLeft, trimRight, dropTrailingParens,
    dropLeadingParens_eq_dropWhile]

/-- C8 (amended): the sorting-key parser splits on commas, trims whitespace,
removes " ASC"/" DESC" suffixes, strips all leading and trailing parenthesis
characters from each entry, and drops empty entries. -/
theorem C8_parseSortingKey_amended (s : Str) :
    parseSortingKey s = amendedParseSortingKey s := by
  simp only [parseSortingKey, amendedParseSortingKey]
  split
  · rfl
  · have hfun : (fun part => trimParens
        (trimEnd (trimEnd (trimSpace part) (str " ASC")) (str " DESC")))
        = (fun part => dropTrailingParens (dropLeadingParens
            (trimEnd (trimEnd (trimSpace part) (str " ASC")) (str " DESC")))) :=
      funext fun part => trimParens_eq_amended _
    rw [hfun]

/-- C8 witness: the amended description evaluated on a concrete input via the
theorem. -/
theorem C8_amended_witness :
    parseSortingKey (str "a ASC, (b)") = amendedParseSortingKey (str "a ASC, (b)") ∧
    parseSortingKey (str "a ASC, (b)") = [str "a", str "b"] := by
  refine ⟨C8_parseSortingKey_amended (str "a ASC, (b)"), ?_⟩
  decide

/-- C9: the field number is the 1-based position plus 10 (computed in uint64
arithmetic), with a zero result clamped to 1 and an overflowing result clamped
to the int32 maximum, so the result is always a valid positive field number;
position 1 yields 11. -/
theorem C9_field_number (p : Nat) (hp : p < 2 ^ 64) :
    (1 ≤ GetFieldNumber p ∧ GetFieldNumber p ≤ 2147483647) ∧
    (p + 10 ≤ 2147483647 → GetFieldNumber p = p + 10) ∧
    ((p + 10) % 2 ^ 64 > 2147483647 → GetFieldNumber p = 2147483647) ∧
    ((p + 10) % 2 ^ 64 = 0 → GetFieldNumber p = 1) ∧
    GetFieldNumber 1 = 11 := by
  simp only [GetFieldNumber]
  refine ⟨?_, ?_, ?_, ?_, by decide⟩ <;> · split_ifs <;> omega

/-- C9 witness: position 1 yields field number 11, via the theorem. -/
theorem C9_witness : 1 < 2 ^ 64 ∧ GetFieldNumber 1 = 11 :=
  ⟨by norm_num, (C9_field_number 1 (by norm_num)).2.2.2.2⟩

/-- C10: an override pattern with three or more dot-separated parts matches no
table/field pair, and as the sole CLI entry of a conversion configuration it
never causes a conversion. -/
theorem C10_three_part_pattern_never_matches (pattern tableName fieldName : Str)
    (h : 3 ≤ (splitOnChar '.' pattern).length) :
    matchesPattern pattern tableName fieldName = false ∧
    shouldConvertToString ⟨[], [pattern]⟩ tableName fieldName = false := by
  have hm : matchesPattern pattern tableName fieldName = false := by
    cases hs : splitOnChar '.' pattern with
    | nil => rw [hs] at h; simp at h
    | cons a l =>
      cases l with
      | nil => rw [hs] at h; simp at h
      | cons b l2 =>
        cases l2 with
        | nil => rw [hs] at h; simp at h
        | cons c l3 => simp [matchesPattern, hs]
  exact ⟨hm, by simp [shouldConvertToString, lookupTable, hm]⟩

/-- C10 witness: the three-part pattern "db.table.field" applied at a concrete
table and field via the theorem. -/
theorem C10_witness :
    3 ≤ (splitOnChar '.' (str "db.table.field")).length ∧
    matchesPattern (str "db.table.field") (str "table") (str "field") = false ∧
    shouldConvertToString ⟨[], [str "db.table.field"]⟩ (str "table") (str "field") = false := by
  refine ⟨by decide, ?_, ?_⟩
  · exact (C10_three_part_pattern_never_matches (str "db.table.field") (str "table")
      (str "field") (by decide)).1
  · exact (C10_three_part_pattern_never_matches (str "db.table.field") (str "table")
      (str "field") (by decide)).2

/-! ## Type-mapper claims -/

/-- Empty conversion configuration (no table-scoped entries, no CLI patterns). -/
def emptyConversionConfig : ConversionConfig := ⟨[], []⟩

/-- Helper: under a matching override, MapType is determined by the array and
nullable flags alone. -/
lemma mapType_override (col : Column) (tableName : Str) (cc : ConversionConfig)
    (hbase : col.baseType = str "Int64" ∨ col.baseType = str "UInt64")
    (hconv : shouldConvertToString cc tableName col.name = true) :
    MapType col tableName cc =
      Except.ok (if col.isArray then str "repeated string"
        else if col.isNullable then str "google.protobuf.StringValue" else str "string") := by
  simp only [MapType]
  rw [if_pos ⟨hbase.symm, hconv⟩]
  cases ha : col.isArray <;> cases hn : col.isNullable <;> simp [protoString]

/-- C1: a 64-bit integer column matched by the override configuration maps to
the string family — plain string when scalar, the nullable-string wrapper when
nullable, repeated string when array — before any other rule, and the result
only depends on the boolean fact of matching, so any two matching
configurations (table-scoped, CLI, or both) give the identical result. -/
theorem C1_bigint_override (col : Column) (tableName : Str) (cc : ConversionConfig)
    (hbase : col.baseType = str "Int64" ∨ col.baseType = str "UInt64")
    (hconv : shouldConvertToString cc tableName col.name = true) :
    MapType col tableName cc =
      Except.ok (if col.isArray then str "repeated string"
        else if col.isNullable then str "google.protobuf.StringValue" else str "string") ∧
    (∀ cc2 : ConversionConfig, shouldConvertToString cc2 tableName col.name = true →
      MapType col tableName cc2 = MapType col tableName cc) :=
  ⟨mapType_override col tableName cc hbase hconv,
   fun cc2 h2 => (mapType_override col tableName cc2 hbase h2).trans
     (mapType_override col tableName cc hbase hconv).symm⟩

/-- C1 witness: a UInt64 column matched both by the table-scoped list and a CLI
pattern, evaluated through the theorem. -/
theorem C1_witness :
    (str "UInt64" = str "Int64" ∨ str "UInt64" = str "UInt64") ∧
    shouldConvertToString ⟨[(str "t", [str "value"])], [str "*.value"]⟩ (str "t") (str "value")
      = true ∧
    MapType ⟨str "value", str "Nullable(UInt64)", str "UInt64", 1, true, false⟩ (str "t")
        ⟨[(str "t", [str "value"])], [str "*.value"]⟩
      = Except.ok (str "google.protobuf.StringValue") ∧
    MapType ⟨str "value", str "Nullable(UInt64)", str "UInt64", 1, true, false⟩ (str "t")
        ⟨[], [str "*.value"]⟩
      = MapType ⟨str "value", str "Nullable(UInt64)", str "UInt64", 1, true, false⟩ (str "t")
        ⟨[(str "t", [str "value"])], [str "*.value"]⟩ := by
  have h := C1_bigint_override
    ⟨str "value", str "Nullable(UInt64)", str "UInt64", 1, true, false⟩ (str "t")
    ⟨[(str "t", [str "value"])], [str "*.value"]⟩ (Or.inr rfl) (by decide)
  exact ⟨Or.inr rfl, by decide, h.1, h.2 ⟨[], [str "*.value"]⟩ (by decide)⟩

/-- C2: with no override in effect, a nullable non-array column maps to the
wrapper of the plain (both-flags-false) mapping when that wrapper exists and to
the plain mapping itself when it does not, and an array column maps to
"repeated" applied to the plain mapping regardless of nullability. -/
theorem C2_nullable_array_composition (name ft b : Str) (pos : Nat) (tableName : Str)
    (cc : ConversionConfig)
    (hconv : shouldConvertToString cc tableName name = false)
    (p : Str) (hp : MapType ⟨name, ft, b, pos, false, false⟩ tableName cc = Except.ok p) :
    (getWrapperType p ≠ [] →
      MapType ⟨name, ft, b, pos, true, false⟩ tableName cc = Except.ok (getWrapperType p)) ∧
    (getWrapperType p = [] →
      MapType ⟨name, ft, b, pos, true, false⟩ tableName cc = Except.ok p) ∧
    (∀ nullable : Bool, MapType ⟨name, ft, b, pos, nullable, true⟩ tableName cc =
      Except.ok (str "repeated " ++ p)) := by
  have hcond : ¬ ((b = str "UInt64" ∨ b = str "Int64") ∧
      shouldConvertToString cc tableName name = true) := by
    rintro ⟨-, h2⟩
    rw [hconv] at h2
    exact Bool.false_ne_true h2
  have hp' : p = mapBaseType b ft := by
    simp only [MapType, if_neg hcond] at hp
    simpa using hp.symm
  subst hp'
  refine ⟨fun hw => ?_, fun hw => ?_, fun nullable => ?_⟩
  · simp only [MapType, if_neg hcond]
    simp [hw]
  · simp only [MapType, if_neg hcond]
    simp [hw]
  · simp only [MapType, if_neg hcond]
    simp

/-- C2 witness: the Int32/Int32Value pair and the repeated form, evaluated
through the theorem at a concrete column. -/
theorem C2_witness :
    shouldConvertToString emptyConversionConfig (str "t") (str "c") = false ∧
    MapType ⟨str "c", str "Int32", str "Int32", 1, false, false⟩ (str "t")
      emptyConversionConfig = Except.ok protoInt32 ∧
    MapType ⟨str "c", str "Int32", str "Int32", 1, true, false⟩ (str "t")
      emptyConversionConfig = Except.ok (str "google.protobuf.Int32Value") ∧
    MapType ⟨str "c", str "Int32", str "Int32", 1, true, true⟩ (str "t")
      emptyConversionConfig = Except.ok (str "repeated int32") := by
  have hok : MapType ⟨str "c", str "Int32", str "Int32", 1, false, false⟩ (str "t")
      emptyConversionConfig = Except.ok protoInt32 := by
    simp [MapType, mapBaseType, mapNumericType, shouldConvertToString, lookupTable,
      emptyConversionConfig, str, protoInt32]
  have h := C2_nullable_array_composition (str "c") (str "Int32") (str "Int32") 1 (str "t")
    emptyConversionConfig (by decide) protoInt32 hok
  refine ⟨by decide, hok, ?_, ?_⟩
  · have := h.1 (by decide)
    rwa [show getWrapperType protoInt32 = str "google.protobuf.Int32Value" from by decide]
      at this
  · have := h.2.2 true
    rwa [show str "repeated " ++ protoInt32 = str "repeated int32" from by decide] at this

/-- Base type names that the mapper's lookup tables and special cases
recognize (every name tested in mapBaseType, mapNumericType, mapStringType and
the special composite handling). -/
def knownBaseTypes : List Str :=
  [str "DateTime64", str "Int8", str "Int16", str "Int32", str "Int64", str "Int128",
   str "Int256", str "UInt8", str "UInt16", str "UInt32", str "UInt64", str "UInt128",
   str "UInt256", str "Float32", str "Float64", str "Decimal", str "Decimal32",
   str "Decimal64", str "Decimal128", str "Decimal256", str "Bool", str "DateTime",
   str "String", str "FixedString", str "Date", str "Date32", str "UUID", str "IPv4",
   str "IPv6", str "JSON", str "Binary", str "Enum8", str "Enum16", str "Point",
   str "Ring", str "Polygon", str "MultiPolygon", str "LowCardinality", str "Map",
   str "Tuple"]

/-- C5: the type mapper is total — MapType never returns an error for any
column, an unrecognized base type name maps to the string type, and the scalar
filter selector returns the no-filter default whenever the mapped type is not
one of the six filterable scalar kinds. -/
theorem C5_total_mapping_no_error :
    (∀ (col : Column) (tableName : Str) (cc : ConversionConfig),
      (MapType col tableName cc).isOk = true) ∧
    (∀ b ft : Str, b ∉ knownBaseTypes → mapBaseType b ft = protoString) ∧
    (∀ col : Column,
      mapBaseType col.baseType col.type ∉
        [protoInt32, protoInt64, protoUInt32, protoUInt64, protoString, protoBool] →
      getScalarFilterType col = []) := by
  refine ⟨?_, ?_, ?_⟩
  · intro col tableName cc
    simp only [MapType]
    split_ifs <;> rfl
  · intro b ft h
    simp only [knownBaseTypes, List.mem_cons, List.not_mem_nil, or_false, not_or] at h
    obtain ⟨hDT64, hI8, hI16, hI32, hI64, hI128, hI256, hU8, hU16, hU32, hU64, hU128,
      hU256, hF32, hF64, hDec, hDec32, hDec64, hDec128, hDec256, hBool, hDT, hStr,
      hFStr, hDate, hDate32, hUUID, hIP4, hIP6, hJSON, hBin, hE8, hE16, hPt, hRing,
      hPoly, hMPoly, hLC, hMap, hTup⟩ := h
    have hnum : mapNumericType b = [] := by
      simp [mapNumericType, hI8, hI16, hI32, hI64, hI128, hI256, hU8, hU16, hU32, hU64,
        hU128, hU256, hF32, hF64, hDec, hDec32, hDec64, hDec128, hDec256, hBool, hDT]
    have hstrt : mapStringType b = [] := by
      simp [mapStringType, hStr, hFStr, hDate, hDate32, hUUID, hIP4, hIP6, hJSON, hBin,
        hE8, hE16, hPt, hRing, hPoly, hMPoly]
    simp [mapBaseType, hDT64, hnum, hstrt, hLC, hMap, hTup]
  · intro col h
    simp only [List.mem_cons, List.not_mem_nil, or_false, not_or] at h
    obtain ⟨h1, h2, h3, h4, h5, h6⟩ := h
    simp [getScalarFilterType, scalarBaseFilter, h1, h2, h3, h4, h5, h6]

/-- C5 witness: the conjuncts evaluated through the theorem at a made-up type
name and at a float column. -/
theorem C5_witness :
    (MapType ⟨str "c", str "FooType", str "FooType", 1, false, false⟩ (str "t")
      emptyConversionConfig).isOk = true ∧
    str "FooType" ∉ knownBaseTypes ∧
    mapBaseType (str "FooType") (str "FooType") = protoString ∧
    getScalarFilterType ⟨str "price", str "Float64", str "Float64", 1, false, false⟩ = [] := by
  have hd : mapBaseType (str "Float64") (str "Float64") = protoDouble := by
    simp [mapBaseType, mapNumericType, str, protoDouble]
  refine ⟨C5_total_mapping_no_error.1 _ _ _, by decide,
    C5_total_mapping_no_error.2.1 (str "FooType") (str "FooType") (by decide),
    C5_total_mapping_no_error.2.2 ⟨str "price", str "Float64", str "Float64", 1, false, false⟩
      ?_⟩
  show mapBaseType (str "Float64") (str "Float64") ∉ _
  rw [hd]
  decide

/-- Scalar kind underlying a filter tag, following claim C3's wording: each of
the six scalar filter tags names a proto scalar kind, the Nullable variants
additionally record nullability, and every other tag (map filters, empty) has
no underlying scalar kind. -/
def filterTagScalarKind (tag : Str) : Option (Str × Bool) :=
  if tag = str "Int32Filter" then some (protoInt32, false)
  else if tag = str "Int64Filter" then some (protoInt64, false)
  else if tag = str "UInt32Filter" then some (protoUInt32, false)
  else if tag = str "UInt64Filter" then some (protoUInt64, false)
  else if tag = str "StringFilter" then some (protoString, false)
  else if tag = str "BoolFilter" then some (protoBool, false)
  else if tag = str "NullableInt32Filter" then some (protoInt32, true)
  else if tag = str "NullableInt64Filter" then some (protoInt64, true)
  else if tag = str "NullableUInt32Filter" then some (protoUInt32, true)
  else if tag = str "NullableUInt64Filter" then some (protoUInt64, true)
  else if tag = str "NullableStringFilter" then some (protoString, true)
  else if tag = str "NullableBoolFilter" then some (protoBool, true)
  else none

/-- Helper: map filter tags have no underlying scalar kind. -/
lemma filterTagScalarKind_mapFilter (s : Str) :
    filterTagScalarKind (getMapFilterType s) = none := by
  simp only [getMapFilterType]
  split_ifs <;> decide

/-- Helper: the kind/nullability extraction for one line of the scalar filter
switch. -/
lemma scalarFilter_kind_of_eq (col : Column) (p bf k : Str) (nv : Bool)
    (hp : mapBaseType col.baseType col.type = p)
    (hbf : scalarBaseFilter p = bf) (hne : ¬ bf = [])
    (hf0 : filterTagScalarKind bf = some (p, false))
    (hf1 : filterTagScalarKind (str "Nullable" ++ bf) = some (p, true))
    (h : filterTagScalarKind (getScalarFilterType col) = some (k, nv)) :
    k = mapBaseType col.baseType col.type ∧ nv = col.isNullable := by
  have hval : getScalarFilterType col
      = if col.isNullable then str "Nullable" ++ bf else bf := by
    simp only [getScalarFilterType, hp, hbf]
    rw [if_neg hne]
  rw [hval] at h
  rw [hp]
  cases hn : col.isNullable <;> rw [hn] at h
  · rw [if_neg (by simp)] at h
    rw [hf0] at h
    simp only [Option.some_inj, Prod.mk.injEq] at h
    exact ⟨h.1.symm, h.2.symm⟩
  · rw [if_pos rfl] at h
    rw [hf1] at h
    simp only [Option.some_inj, Prod.mk.injEq] at h
    exact ⟨h.1.symm, h.2.symm⟩

/-- Helper: a scalar filter tag with an underlying kind pins that kind to the
mapped proto type and its nullability marker to the column's flag. -/
lemma scalarFilter_kind (col : Column) (k : Str) (nv : Bool)
    (h : filterTagScalarKind (getScalarFilterType col) = some (k, nv)) :
    k = mapBaseType col.baseType col.type ∧ nv = col.isNullable := by
  by_cases h1 : mapBaseType col.baseType col.type = protoInt32
  · exact scalarFilter_kind_of_eq col protoInt32 (str "Int32Filter") k nv h1 (by decide)
      (by decide) (by decide) (by decide) h
  by_cases h2 : mapBaseType col.baseType col.type = protoInt64
  · exact scalarFilter_kind_of_eq col protoInt64 (str "Int64Filter") k nv h2 (by decide)
      (by decide) (by decide) (by decide) h
  by_cases h3 : mapBaseType col.baseType col.type = protoUInt32
  · exact scalarFilter_kind_of_eq col protoUInt32 (str "UInt32Filter") k nv h3 (by decide)
      (by decide) (by decide) (by decide) h
  by_cases h4 : mapBaseType col.baseType col.type = protoUInt64
  · exact scalarFilter_kind_of_eq col protoUInt64 (str "UInt64Filter") k nv h4 (by decide)
      (by decide) (by decide) (by decide) h
  by_cases h5 : mapBaseType col.baseType col.type = protoString
  · exact scalarFilter_kind_of_eq col protoString (str "StringFilter") k nv h5 (by decide)
      (by decide) (by decide) (by decide) h
  by_cases h6 : mapBaseType col.baseType col.type = protoBool
  · exact scalarFilter_kind_of_eq col protoBool (str "BoolFilter") k nv h6 (by decide)
      (by decide) (by decide) (by decide) h
  exfalso
  have hbf : scalarBaseFilter (mapBaseType col.baseType col.type) = [] := by
    simp [scalarBaseFilter, h1, h2, h3, h4, h5, h6]
  have hnil : getScalarFilterType col = [] := by
    simp [getScalarFilterType, hbf]
  rw [hnil] at h
  rw [show filterTagScalarKind [] = none from by decide] at h
  exact Option.noConfusion h

/-- Helper: without a matching override, the flag-cleared column maps to the
bare base-type mapping. -/
lemma mapType_cleared (col : Column) (tableName : Str) (cc : ConversionConfig)
    (hconv : ¬ ((col.baseType = str "UInt64" ∨ col.baseType = str "Int64") ∧
      shouldConvertToString cc tableName col.name = true)) :
    MapType ⟨col.name, col.type, col.baseType, col.position, false, false⟩ tableName cc
      = Except.ok (mapBaseType col.baseType col.type) := by
  simp only [MapType]
  rw [if_neg hconv]
  simp

/-- C3: for a non-array column whose filter tag has an underlying scalar kind,
that kind equals the scalar the type mapper produces for the column with the
wrapper/repeated step disabled (both flags cleared), and the tag's nullability
marker equals the column's nullability — including override-converted 64-bit
integer columns, whose filter is the (nullable) string filter because their
mapped type is string. -/
theorem C3_filter_matches_mapped_type (col : Column) (tableName : Str)
    (cc : ConversionConfig) (harr : col.isArray = false) (k : Str) (nv : Bool)
    (htag : filterTagScalarKind (GetFilterTypeForColumn col tableName cc) = some (k, nv)) :
    MapType ⟨col.name, col.type, col.baseType, col.position, false, false⟩ tableName cc
      = Except.ok k ∧ nv = col.isNullable := by
  by_cases hconv : (col.baseType = str "UInt64" ∨ col.baseType = str "Int64") ∧
      shouldConvertToString cc tableName col.name = true
  · have hGF : GetFilterTypeForColumn col tableName cc
        = (if col.isNullable then str "NullableStringFilter" else str "StringFilter") := by
      simp only [GetFilterTypeForColumn, harr]
      rw [if_neg (show ¬ (false = true) by simp)]
      rw [if_pos hconv]
    rw [hGF] at htag
    have hmt : MapType ⟨col.name, col.type, col.baseType, col.position, false, false⟩
        tableName cc = Except.ok protoString := by
      simp only [MapType]
      rw [if_pos hconv]
      simp
    cases hn : col.isNullable
    · rw [hn, if_neg (show ¬ (false = true) by simp)] at htag
      rw [show filterTagScalarKind (str "StringFilter") = some (protoString, false)
        from by decide] at htag
      simp only [Option.some_inj, Prod.mk.injEq] at htag
      refine ⟨?_, htag.2.symm⟩
      rw [← htag.1]
      exact hmt
    · rw [hn, if_pos rfl] at htag
      rw [show filterTagScalarKind (str "NullableStringFilter") = some (protoString, true)
        from by decide] at htag
      simp only [Option.some_inj, Prod.mk.injEq] at htag
      refine ⟨?_, htag.2.symm⟩
      rw [← htag.1]
      exact hmt
  · have hmt := mapType_cleared col tableName cc hconv
    by_cases hmap : col.baseType = str "Map"
    · exfalso
      have hGF : GetFilterTypeForColumn col tableName cc = getMapFilterType col.type := by
        simp only [GetFilterTypeForColumn, harr]
        rw [if_neg (show ¬ (false = true) by simp)]
        rw [if_neg hconv, if_pos hmap]
      rw [hGF, filterTagScalarKind_mapFilter] at htag
      exact Option.noConfusion htag
    · have hGF : GetFilterTypeForColumn col tableName cc = getScalarFilterType col := by
        simp only [GetFilterTypeForColumn, harr]
        rw [if_neg (show ¬ (false = true) by simp)]
        rw [if_neg hconv, if_neg hmap]
      rw [hGF] at htag
      obtain ⟨hk, hnv⟩ := scalarFilter_kind col k nv htag
      rw [hk]
      exact ⟨hmt, hnv⟩

/-- C3 witness: a nullable Int32 column evaluated through the theorem. -/
theorem C3_witness :
    filterTagScalarKind (GetFilterTypeForColumn
        ⟨str "n", str "Nullable(Int32)", str "Int32", 1, true, false⟩ (str "t")
        emptyConversionConfig) = some (protoInt32, true) ∧
    MapType ⟨str "n", str "Nullable(Int32)", str "Int32", 1, false, false⟩ (str "t")
      emptyConversionConfig = Except.ok protoInt32 ∧
    (true : Bool) = true := by
  have htag : filterTagScalarKind (GetFilterTypeForColumn
      ⟨str "n", str "Nullable(Int32)", str "Int32", 1, true, false⟩ (str "t")
      emptyConversionConfig) = some (protoInt32, true) := by
    have e : GetFilterTypeForColumn
        ⟨str "n", str "Nullable(Int32)", str "Int32", 1, true, false⟩ (str "t")
        emptyConversionConfig = str "NullableInt32Filter" := by
      simp [GetFilterTypeForColumn, getScalarFilterType, scalarBaseFilter, mapBaseType,
        mapNumericType, shouldConvertToString, lookupTable, emptyConversionConfig, str,
        protoInt32, protoInt64, protoUInt32, protoUInt64, protoString, protoBool]
    rw [e]
    decide
  have h := C3_filter_matches_mapped_type
    ⟨str "n", str "Nullable(Int32)", str "Int32", 1, true, false⟩ (str "t")
    emptyConversionConfig rfl protoInt32 true htag
  exact ⟨htag, h.1, h.2⟩

/-! ## Column Expression Rewriter (claim C6, modelled from the spec) -/

/-- Modelled from the spec: the per-base-type conversion table of the select
expression rewriter.  The Go function getSelectColumnExpression (sql_helper.go)
is not under src/ — only its tests are — so the fixed conversion table of
spec section 4.5 is modelled here: calendar dates to text (toString), narrow
unsigned integers widened to 32-bit (toUInt32), DateTime to integer Unix time
(toUnixTimestamp), DateTime64 to Unix time at microsecond granularity
(toUnixTimestamp64Micro), and the 128/256-bit integer families to text. -/
def conversionFunction (baseType : Str) : Option Str :=
  if baseType = str "Date" ∨ baseType = str "Date32" then some (str "toString")
  else if baseType = str "UInt8" ∨ baseType = str "UInt16" then some (str "toUInt32")
  else if baseType = str "DateTime" then some (str "toUnixTimestamp")
  else if baseType = str "DateTime64" then some (str "toUnixTimestamp64Micro")
  else if baseType = str "Int128" ∨ baseType = str "Int256" ∨ baseType = str "UInt128" ∨
      baseType = str "UInt256" then some (str "toString")
  else none

/-- Modelled from the spec: the conversion selected for a column — the
big-integer override (matched 64-bit integer columns are rewritten with
toString) ahead of the fixed table. -/
def selectConversion (column : Column) (tableName : Str) (cc : ConversionConfig) :
    Option Str :=
  if (column.baseType = str "UInt64" ∨ column.baseType = str "Int64") ∧
      shouldConvertToString cc tableName column.name = true then some (str "toString")
  else conversionFunction column.baseType

/-- Modelled from the spec: getSelectColumnExpression — the bare column name
when no conversion applies; f(`col`) AS `col` for a scalar conversion; an
element-wise arrayMap when the column is an array; a coalesce default
substituted for null elements when the array elements are nullable. -/
def getSelectColumnExpression (column : Column) (tableName : Str)
    (cc : ConversionConfig) : Str :=
  match selectConversion column tableName cc with
  | none => column.name
  | some f =>
    let q := str "`" ++ column.name ++ str "`"
    if column.isArray then
      if column.isNullable then
        str "arrayMap(x -> " ++ f ++ str "(coalesce(x, 0)), " ++ q ++ str ") AS " ++ q
      else
        str "arrayMap(x -> " ++ f ++ str "(x), " ++ q ++ str ") AS " ++ q
    else f ++ str "(" ++ q ++ str ") AS " ++ q

/-- C6: the select-expression rewriter applies the fixed per-base-type
conversion table, restates the conversion as an element-wise arrayMap for array
columns, substitutes a default for null elements via coalesce when the array
elements are nullable, and returns the bare column name when no conversion
applies. -/
theorem C6_select_expression (col : Column) (tableName : Str) (cc : ConversionConfig) :
    (conversionFunction (str "Date") = some (str "toString") ∧
     conversionFunction (str "Date32") = some (str "toString") ∧
     conversionFunction (str "UInt8") = some (str "toUInt32") ∧
     conversionFunction (str "UInt16") = some (str "toUInt32") ∧
     conversionFunction (str "DateTime") = some (str "toUnixTimestamp") ∧
     conversionFunction (str "DateTime64") = some (str "toUnixTimestamp64Micro") ∧
     conversionFunction (str "Int128") = some (str "toString") ∧
     conversionFunction (str "Int256") = some (str "toString") ∧
     conversionFunction (str "UInt128") = some (str "toString") ∧
     conversionFunction (str "UInt256") = some (str "toString")) ∧
    (selectConversion col tableName cc = none →
      getSelectColumnExpression col tableName cc = col.name) ∧
    (∀ f, selectConversion col tableName cc = some f → col.isArray = false →
      getSelectColumnExpression col tableName cc
        = f ++ str "(`" ++ col.name ++ str "`) AS `" ++ col.name ++ str "`") ∧
    (∀ f, selectConversion col tableName cc = some f → col.isArray = true →
      col.isNullable = false →
      getSelectColumnExpression col tableName cc
        = str "arrayMap(x -> " ++ f ++ str "(x), `" ++ col.name ++ str "`) AS `"
          ++ col.name ++ str "`") ∧
    (∀ f, selectConversion col tableName cc = some f → col.isArray = true →
      col.isNullable = true →
      getSelectColumnExpression col tableName cc
        = str "arrayMap(x -> " ++ f ++ str "(coalesce(x, 0)), `" ++ col.name ++ str "`) AS `"
          ++ col.name ++ str "`") := by
  refine ⟨by decide, ?_, ?_, ?_, ?_⟩
  · intro hnone
    simp [getSelectColumnExpression, hnone]
  · intro f hf harr
    simp [getSelectColumnExpression, hf, harr, str]
  · intro f hf harr hnul
    simp [getSelectColumnExpression, hf, harr, hnul, str]
  · intro f hf harr hnul
    simp [getSelectColumnExpression, hf, harr, hnul, str]

/-- C6 witness: the DateTime, override-array and no-conversion cases evaluated
through the theorem at concrete columns. -/
theorem C6_witness :
    selectConversion ⟨str "created_at", str "DateTime", str "DateTime", 1, false, false⟩
      (str "t") emptyConversionConfig = some (str "toUnixTimestamp") ∧
    getSelectColumnExpression ⟨str "created_at", str "DateTime", str "DateTime", 1, false, false⟩
      (str "t") emptyConversionConfig = str "toUnixTimestamp(`created_at`) AS `created_at`" ∧
    getSelectColumnExpression ⟨str "values", str "Array(Nullable(UInt64))", str "UInt64", 1, true, true⟩
      (str "fct_prepared_block") ⟨[(str "fct_prepared_block", [str "values"])], []⟩
      = str "arrayMap(x -> toString(coalesce(x, 0)), `values`) AS `values`" ∧
    getSelectColumnExpression ⟨str "name", str "String", str "String", 1, false, false⟩
      (str "t") emptyConversionConfig = str "name" := by
  refine ⟨by decide, ?_, ?_, ?_⟩
  · have h := (C6_select_expression
      ⟨str "created_at", str "DateTime", str "DateTime", 1, false, false⟩
      (str "t") emptyConversionConfig).2.2.1 (str "toUnixTimestamp") (by decide) rfl
    rw [h]
    decide
  · have h := (C6_select_expression
      ⟨str "values", str "Array(Nullable(UInt64))", str "UInt64", 1, true, true⟩
      (str "fct_prepared_block") ⟨[(str "fct_prepared_block", [str "values"])], []⟩).2.2.2.2
      (str "toString") (by decide) rfl rfl
    rw [h]
    decide
  · exact (C6_select_expression
      ⟨str "name", str "String", str "String", 1, false, false⟩
      (str "t") emptyConversionConfig).2.1 (by decide)

/-! ## Primary-Key Reconciler (claim C4, modelled from the spec) -/

/-- Modelled from the spec: the per-projection insertion step of the
primary-key collection — a projection's leading ordering column is appended if
distinct from all keys already collected (stable insertion order).  The Go
implementation (sql_helper.go) is not under src/, only its tests are. -/
def insertLeading (acc : List Str) (p : Projection) : List Str :=
  match p.orderByKey with
  | [] => acc
  | k :: _ => if k ∈ acc then acc else acc ++ [k]

/-- Modelled from the spec: the primary-key collection — the table's own
leading ordering column first, then each projection's leading ordering column
if not already collected. -/
def getAllPrimaryKeys (t : Table) : List Str :=
  t.projections.foldl insertLeading
    (match t.sortingKey with
     | [] => []
     | k :: _ => [k])

/-- Validation mode of the reconciled key set. -/
inductive PKMode where
  | required : PKMode
  | orGroup : PKMode
deriving DecidableEq

/-- Modelled from the spec: Required when the reconciled set has exactly one
member, OrGroup otherwise. -/
def pkMode (t : Table) : PKMode :=
  if (getAllPrimaryKeys t).length = 1 then PKMode.required else PKMode.orGroup

/-- Modelled from the spec: generated filter access is nil-guarded exactly when
more than one key was collected (each field individually optional). -/
def pkNilGuarded (t : Table) : Bool :=
  decide (1 < (getAllPrimaryKeys t).length)

/-- Comma-space join of a list of names. -/
def joinCommaSpace : List Str → Str
  | [] => []
  | [x] => x
  | x :: y :: rest => x ++ str ", " ++ joinCommaSpace (y :: rest)

/-- Lexicographic sort of a name list. -/
def sortKeys (l : List Str) : List Str := l.insertionSort (· ≤ ·)

/-- Modelled from the spec: the emitted validation text — the single-field
required form for one key, the at-least-one-of form with the key names in
lexicographic order for several. -/
def pkValidationText (t : Table) : Str :=
  match getAllPrimaryKeys t with
  | [k] => str "primary key field " ++ k ++ str " is required"
  | keys => str "at least one primary key field is required: "
      ++ joinCommaSpace (sortKeys keys)

/-- Helper: the insertion step never removes the head. -/
lemma insertLeading_head (acc : List Str) (p : Projection) (h : acc ≠ []) :
    (insertLeading acc p).head? = acc.head? := by
  cases hk : p.orderByKey with
  | nil => simp [insertLeading, hk]
  | cons k rest =>
    simp only [insertLeading, hk]
    split
    · rfl
    · cases acc with
      | nil => exact absurd rfl h
      | cons a as => rfl

/-- Helper: the insertion step never empties the accumulator. -/
lemma insertLeading_ne_nil (acc : List Str) (p : Projection) (h : acc ≠ []) :
    insertLeading acc p ≠ [] := by
  cases hk : p.orderByKey with
  | nil => simpa [insertLeading, hk] using h
  | cons k rest =>
    simp only [insertLeading, hk]
    split
    · exact h
    · simp

/-- Helper: the fold preserves the head of a nonempty accumulator. -/
lemma foldl_insertLeading_head (ps : List Projection) (acc : List Str) (h : acc ≠ []) :
    (ps.foldl insertLeading acc).head? = acc.head? := by
  induction ps generalizing acc with
  | nil => rfl
  | cons p ps ih =>
    rw [List.foldl_cons, ih _ (insertLeading_ne_nil acc p h)]
    exact insertLeading_head acc p h

/-- Helper: the insertion step preserves deduplication. -/
lemma insertLeading_nodup (acc : List Str) (p : Projection) (h : acc.Nodup) :
    (insertLeading acc p).Nodup := by
  cases hk : p.orderByKey with
  | nil => simpa [insertLeading, hk] using h
  | cons k rest =>
    simp only [insertLeading, hk]
    split
    · exact h
    · rename_i hnot
      simp [List.nodup_append, h, hnot]

/-- Helper: the fold preserves deduplication. -/
lemma foldl_insertLeading_nodup (ps : List Projection) (acc : List Str) (h : acc.Nodup) :
    (ps.foldl insertLeading acc).Nodup := by
  induction ps generalizing acc with
  | nil => exact h
  | cons p ps ih => exact ih _ (insertLeading_nodup acc p h)

/-- Helper: membership after one insertion step. -/
lemma insertLeading_mem (acc : List Str) (p : Projection) (x : Str) :
    x ∈ insertLeading acc p ↔ x ∈ acc ∨ p.orderByKey.head? = some x := by
  cases hk : p.orderByKey with
  | nil => simp [insertLeading, hk]
  | cons k rest =>
    simp only [insertLeading, hk, List.head?_cons]
    split
    · rename_i hmem
      constructor
      · exact fun hx => Or.inl hx
      · rintro (hx | hx)
        · exact hx
        · rw [Option.some_inj] at hx
          rw [← hx]
          exact hmem
    · simp [or_comm, eq_comm]

/-- Helper: membership in the folded collection. -/
lemma foldl_insertLeading_mem (ps : List Projection) (acc : List Str) (x : Str) :
    x ∈ ps.foldl insertLeading acc ↔
      x ∈ acc ∨ ∃ p ∈ ps, p.orderByKey.head? = some x := by
  induction ps generalizing acc with
  | nil => simp
  | cons p ps ih =>
    rw [List.foldl_cons, ih, insertLeading_mem]
    constructor
    · rintro ((hx | hx) | ⟨q, hq, hx⟩)
      · exact Or.inl hx
      · exact Or.inr ⟨p, List.mem_cons_self p ps, hx⟩
      · exact Or.inr ⟨q, List.mem_cons_of_mem p hq, hx⟩
    · rintro (hx | ⟨q, hq, hx⟩)
      · exact Or.inl (Or.inl hx)
      · rcases List.mem_cons.mp hq with hq | hq
        · exact Or.inl (Or.inr (hq ▸ hx))
        · exact Or.inr ⟨q, hq, hx⟩

/-- C4: the primary-key reconciliation collects the table's own leading
sorting column first, then each projection's leading ordering column when not
already collected (deduplicated); a one-member set gives Required mode with
direct (non-nil-guarded) access; a larger set gives OrGroup mode with
nil-guarded access and a validation text listing the keys in lexicographic
order, independent of discovery order. -/
theorem C4_primary_key_reconciliation (t : Table) :
    (t.sortingKey ≠ [] → (getAllPrimaryKeys t).head? = t.sortingKey.head?) ∧
    (getAllPrimaryKeys t).Nodup ∧
    (∀ x, x ∈ getAllPrimaryKeys t ↔
      (t.sortingKey.head? = some x ∨ ∃ p ∈ t.projections, p.orderByKey.head? = some x)) ∧
    ((getAllPrimaryKeys t).length = 1 →
      pkMode t = PKMode.required ∧ pkNilGuarded t = false) ∧
    (1 < (getAllPrimaryKeys t).length →
      pkMode t = PKMode.orGroup ∧ pkNilGuarded t = true ∧
      pkValidationText t = str "at least one primary key field is required: "
        ++ joinCommaSpace (sortKeys (getAllPrimaryKeys t)) ∧
      (sortKeys (getAllPrimaryKeys t)).Sorted (· ≤ ·) ∧
      (sortKeys (getAllPrimaryKeys t)).Perm (getAllPrimaryKeys t)) ∧
    (∀ t2 : Table, (getAllPrimaryKeys t2).Perm (getAllPrimaryKeys t) →
      sortKeys (getAllPrimaryKeys t2) = sortKeys (getAllPrimaryKeys t)) := by
  refine ⟨?_, ?_, ?_, ?_, ?_, ?_⟩
  · intro h
    cases hs : t.sortingKey with
    | nil => exact absurd hs h
    | cons k rest =>
      simp only [getAllPrimaryKeys, hs]
      rw [foldl_insertLeading_head _ _ (by simp)]
      rfl
  · apply foldl_insertLeading_nodup
    cases t.sortingKey <;> simp
  · intro x
    simp only [getAllPrimaryKeys]
    rw [foldl_insertLeading_mem]
    cases hs : t.sortingKey <;> simp [eq_comm]
  · intro h
    constructor
    · simp [pkMode, h]
    · simp [pkNilGuarded, h]
  · intro h
    have hne : (getAllPrimaryKeys t).length ≠ 1 := by omega
    refine ⟨by simp [pkMode, hne], by simp [pkNilGuarded]; omega, ?_,
      List.sorted_insertionSort _ _, List.perm_insertionSort _ _⟩
    cases hK : getAllPrimaryKeys t with
    | nil => rw [hK] at h; simp at h
    | cons a tail =>
      cases tail with
      | nil => rw [hK] at h; simp at h
      | cons b tl => simp [pkValidationText, hK]
  · intro t2 hperm
    refine List.eq_of_perm_of_sorted ?_ (List.sorted_insertionSort _ _)
      (List.sorted_insertionSort _ _)
    exact ((List.perm_insertionSort _ _).trans hperm).trans
      (List.perm_insertionSort _ _).symm

/-- The logs table from the repository's sql_helper tests: base key log_id,
projections nominating level and host. -/
def logsTable : Table :=
  ⟨str "logs", str "default", [], [str "log_id"],
   [⟨str "by_level", [str "level", str "timestamp"], str "NORMAL"⟩,
    ⟨str "by_host", [str "host", str "timestamp"], str "NORMAL"⟩]⟩

/-- C4 witness: the logs table evaluated through the theorem — discovery order
log_id, level, host; emitted list in lexicographic order host, level, log_id. -/
theorem C4_witness :
    1 < (getAllPrimaryKeys logsTable).length ∧
    getAllPrimaryKeys logsTable = [str "log_id", str "level", str "host"] ∧
    pkMode logsTable = PKMode.orGroup ∧
    pkNilGuarded logsTable = true ∧
    pkValidationText logsTable
      = str "at least one primary key field is required: host, level, log_id" := by
  have h := (C4_primary_key_reconciliation logsTable).2.2.2.2.1 (by decide)
  refine ⟨by decide, by decide, h.1, h.2.1, ?_⟩
  rw [h.2.2.1]
  decide

end CHProto
